import Mathlib

/-!
Shallow embedding of `src/python/tvm/micro/transport/fd.py` (class `FdTransport`).

The transport performs I/O through the operating system (`select.select`,
`os.read`, `os.write`, `os.close`, `time.monotonic`, `fcntl.fcntl`).  The OS is
modelled as an oracle of response functions, and every modelled method returns,
besides its result, the ordered trace of system calls it issued, so that
properties such as "the descriptors are released before the error propagates"
or "no readiness wait is performed" are statements about the trace.

Python is dynamically typed; `_await_ready` is called with differently typed
arguments from the read path and the write path (the write path passes
`end_time` positionally in the `rlist` slot), so the values flowing into its
parameters are modelled by a small dynamic value type `PyVal`.
-/

deriving instance DecidableEq for Except

namespace FdPy

/-- Byte sequences (`bytes` in Python) as lists of byte values. -/
abbrev Bytes := List ℕ

/-- The exceptions that the modelled code can raise: `IoTimeoutError`,
`TransportClosedError`, `FdConfigurationError` (all from the source), and
Python's `TypeError` for the dynamically ill-typed dead paths. -/
inductive Err where
  | ioTimeout
  | transportClosed
  | fdConfiguration
  | typeError
  deriving DecidableEq, Repr

/-- One system call issued by the transport, recorded in program order.
`osWrite` records the buffer passed to `os.write` together with the number of
bytes the OS reported written. -/
inductive Event where
  | selectCall (rl wl xl : List ℕ) (tmo : ℚ)
  | osRead (fd n : ℕ)
  | osWrite (fd : ℕ) (data : Bytes) (numWritten : ℕ)
  | osClose (fd : ℕ)
  deriving DecidableEq, Repr

/-- A dynamically typed Python value, covering the values that flow into the
parameters of `_await_ready` across its two call sites: `None`, a clock value
(float, modelled as ℚ), or a Python list of descriptors (whose elements are
descriptors or `None`, since the attributes are passed as-is). -/
inductive PyVal where
  | none
  | num (q : ℚ)
  | fds (l : List (Option ℕ))
  deriving DecidableEq, Repr

/-- The OS oracle: responses of the environment.  `monotonicStart` is the value
of `time.monotonic()` at the top of `read`/`write`; `monotonicWait` its value
inside `_await_ready`; `select` maps the three watch lists and the timeout to
the triple of ready lists; `readResult fd n` is what `os.read(fd, n)` returns;
`writeResult data` is what `os.write(fd, data)` returns for the buffer `data`
(the buffer shrinks strictly between iterations, so a function of the buffer
covers every per-iteration behaviour). -/
structure Oracle where
  monotonicStart : ℚ
  monotonicWait : ℚ
  select : List ℕ → List ℕ → List ℕ → ℚ → List ℕ × List ℕ × List ℕ
  readResult : ℕ → ℕ → Bytes
  writeResult : Bytes → ℕ

/-- The transport state: the two descriptor attributes set by `__init__`.
They are `Option ℕ` because `close` guards on `is not None`; the source never
assigns `None` to them (in particular `close` does not invalidate them). -/
structure FdTransport where
  read_fd : Option ℕ
  write_fd : Option ℕ
  deriving DecidableEq, Repr

/-- `os.O_NONBLOCK` on Linux: octal `0o4000`. -/
def O_NONBLOCK : ℕ := 2048

/-- The OS per-descriptor file status flags, for the configurator model. -/
structure FlagsState where
  flags : ℕ → ℕ

/-- `fcntl.fcntl(fd, fcntl.F_GETFL)`: returns the status flags of `fd`. -/
def fcntlGetfl (s : FlagsState) (fd : ℕ) : ℕ := s.flags fd

/-- `fcntl.fcntl(fd, fcntl.F_SETFL, arg)`: sets the status flags of `fd` to
`arg`; the Python call returns the integer returned by the underlying C
`fcntl`, which for `F_SETFL` is `0` on success (POSIX; CPython `fcntl` docs). -/
def fcntlSetfl (s : FlagsState) (fd arg : ℕ) : ℕ × FlagsState :=
  (0, ⟨fun x => if x = fd then arg else s.flags x⟩)

/-- A constructor argument: `fd if isinstance(fd, int) else fd.fileno()` — a
raw descriptor number or an object whose `fileno()` yields one. -/
inductive FdLike where
  | int (fd : ℕ)
  | fileno (fd : ℕ)
  deriving DecidableEq, Repr

/-- `fd = fd if isinstance(fd, int) else fd.fileno()` (fd.py line 36). -/
def FdLike.resolve : FdLike → ℕ
  | .int fd => fd
  | .fileno fd => fd

/-- `FdTransport._validate_configure_fd` (fd.py lines 34-44): query the flags;
if `O_NONBLOCK` is already set, accept; otherwise call `F_SETFL` with
`O_NONBLOCK | flag` and test `O_NONBLOCK` on the *return value of that call*
(`flag = fcntl.fcntl(fd, fcntl.F_SETFL, os.O_NONBLOCK | flag)` then
`if flag & os.O_NONBLOCK == 0: raise FdConfigurationError`). -/
def validateConfigureFd (s : FlagsState) (fdIn : FdLike) : Except Err ℕ × FlagsState :=
  let fd := fdIn.resolve
  let flag := fcntlGetfl s fd
  if flag &&& O_NONBLOCK ≠ 0 then
    (Except.ok fd, s)
  else
    let r := fcntlSetfl s fd (O_NONBLOCK ||| flag)
    if r.1 &&& O_NONBLOCK = 0 then
      (Except.error Err.fdConfiguration, r.2)
    else
      (Except.ok fd, r.2)

/-- `FdTransport.__init__` (fd.py lines 46-48): validate/configure the read
descriptor, then the write descriptor, and store both. -/
def initTransport (s : FlagsState) (read_fd write_fd : FdLike) :
    Except Err FdTransport × FlagsState :=
  match validateConfigureFd s read_fd with
  | (Except.error e, s1) => (Except.error e, s1)
  | (Except.ok rfd, s1) =>
    match validateConfigureFd s1 write_fd with
    | (Except.error e, s2) => (Except.error e, s2)
    | (Except.ok wfd, s2) => (Except.ok ⟨some rfd, some wfd⟩, s2)

/-- `FdTransport.close` (fd.py lines 53-57): `os.close` each descriptor that
`is not None`.  The attributes are *not* cleared afterwards — the returned
state is the unchanged `t`. -/
def close (t : FdTransport) : List Event × FdTransport :=
  ((match t.read_fd with
    | Option.none => []
    | Option.some fd => [Event.osClose fd]) ++
   (match t.write_fd with
    | Option.none => []
    | Option.some fd => [Event.osClose fd]),
   t)

/-- Interpret a `PyVal` where `select.select` expects a sequence of
descriptors: a list whose every element is a descriptor; anything else (or a
`None` element) raises `TypeError`. -/
def asFdList : PyVal → Option (List ℕ)
  | PyVal.fds l => l.mapM id
  | _ => Option.none

/-- The timeout handed to `select.select` in `_await_ready` (fd.py lines
63-64): if `timeout_sec is None` it is `max(0, end_time - time.monotonic())`
(a `TypeError` if `end_time` is not a number), otherwise `timeout_sec` itself
(a `TypeError` at the `select` call if it is not a number). -/
def resolveTimeout (o : Oracle) (timeout_sec end_time : PyVal) : Except Err ℚ :=
  match timeout_sec with
  | PyVal.none =>
    match end_time with
    | PyVal.num q => Except.ok (max 0 (q - o.monotonicWait))
    | _ => Except.error Err.typeError
  | PyVal.num q => Except.ok q
  | PyVal.fds _ => Except.error Err.typeError

/-- `FdTransport._await_ready` (fd.py lines 59-69).  `self` is unused.  If the
`end_time` parameter `is None` the method returns at once (result `None`, no
system call).  Otherwise it resolves the timeout, calls
`select.select(rlist, wlist, rlist + wlist, timeout_sec)`, raises
`IoTimeoutError` when all three result lists are empty, returns `True` when
the exceptional list is non-empty, and `None` otherwise. -/
def awaitReady (o : Oracle) (rlist wlist timeout_sec end_time : PyVal) :
    Except Err (Option Bool) × List Event :=
  match end_time with
  | PyVal.none => (Except.ok Option.none, [])
  | _ =>
    match resolveTimeout o timeout_sec end_time with
    | Except.error e => (Except.error e, [])
    | Except.ok tmo =>
      match asFdList rlist, asFdList wlist with
      | Option.some rl, Option.some wl =>
        let res := o.select rl wl (rl ++ wl) tmo
        let ev := [Event.selectCall rl wl (rl ++ wl) tmo]
        if res.1 = [] ∧ res.2.1 = [] ∧ res.2.2 = [] then
          (Except.error Err.ioTimeout, ev)
        else if res.2.2 ≠ [] then
          (Except.ok (Option.some true), ev)
        else
          (Except.ok Option.none, ev)
      | _, _ => (Except.error Err.typeError, [])

/-- `end_time = None if timeout_sec is None else time.monotonic() + timeout_sec`
(fd.py lines 72 and 84). -/
def endTimeOf (o : Oracle) (timeout_sec : Option ℚ) : Option ℚ :=
  timeout_sec.map (fun ts => o.monotonicStart + ts)

/-- Inject an optional clock value into the dynamic value type. -/
def pyOfTime : Option ℚ → PyVal
  | Option.none => PyVal.none
  | Option.some q => PyVal.num q

/-- The read path's readiness call (fd.py line 74):
`self._await_ready([self.read_fd], [], end_time=end_time)` — `rlist` is the
singleton list holding the attribute, `wlist` is empty, `timeout_sec` keeps
its default `None`, and `end_time` is passed by keyword. -/
def readAwait (o : Oracle) (t : FdTransport) (timeout_sec : Option ℚ) :
    Except Err (Option Bool) × List Event :=
  awaitReady o (PyVal.fds [t.read_fd]) (PyVal.fds []) PyVal.none
    (pyOfTime (endTimeOf o timeout_sec))

/-- `FdTransport.read` (fd.py lines 71-81): compute `end_time`, wait, then one
`os.read(self.read_fd, n)`; an empty result triggers `self.close()` followed
by `raise TransportClosedError()`; otherwise the bytes are returned as-is. -/
def read (o : Oracle) (t : FdTransport) (n : ℕ) (timeout_sec : Option ℚ) :
    Except Err Bytes × List Event × FdTransport :=
  match readAwait o t timeout_sec with
  | (Except.error e, ev) => (Except.error e, ev, t)
  | (Except.ok _, ev) =>
    match t.read_fd with
    | Option.none => (Except.error Err.typeError, ev, t)
    | Option.some fd =>
      let to_return := o.readResult fd n
      if to_return = [] then
        (Except.error Err.transportClosed,
         ev ++ [Event.osRead fd n] ++ (close t).1, (close t).2)
      else
        (Except.ok to_return, ev ++ [Event.osRead fd n], t)

/-- The write path's readiness call (fd.py line 88):
`self._await_ready(end_time, [], [self.write_fd])` — all three arguments are
positional, so `end_time` lands in the `rlist` parameter, `[]` in `wlist`,
`[self.write_fd]` in `timeout_sec`, and the `end_time` parameter keeps its
default `None`. -/
def writeAwait (o : Oracle) (t : FdTransport) (end_time : Option ℚ) :
    Except Err (Option Bool) × List Event :=
  awaitReady o (pyOfTime end_time) (PyVal.fds []) (PyVal.fds [t.write_fd]) PyVal.none

/-- The `while data:` loop of `FdTransport.write` (fd.py lines 87-94): wait,
`num_written = os.write(self.write_fd, data)`; `0` written triggers
`self.close()` and `raise TransportClosedError()`; otherwise
`data = data[num_written:]` and the loop repeats. -/
def writeLoop (o : Oracle) (t : FdTransport) (end_time : Option ℚ) (data : Bytes) :
    Except Err Unit × List Event × FdTransport :=
  if hdata : data = [] then
    (Except.ok (), [], t)
  else
    match writeAwait o t end_time with
    | (Except.error e, ev) => (Except.error e, ev, t)
    | (Except.ok _, ev) =>
      match t.write_fd with
      | Option.none => (Except.error Err.typeError, ev, t)
      | Option.some fd =>
        let num_written := o.writeResult data
        if hnw : num_written = 0 then
          (Except.error Err.transportClosed,
           ev ++ [Event.osWrite fd data num_written] ++ (close t).1, (close t).2)
        else
          let res := writeLoop o t end_time (data.drop num_written)
          (res.1, ev ++ [Event.osWrite fd data num_written] ++ res.2.1, res.2.2)
termination_by data.length
decreasing_by
  simp only [List.length_drop]
  have hpos : 0 < data.length := List.length_pos.mpr hdata
  omega

/-- `FdTransport.write` (fd.py lines 83-96): compute `end_time` once,
remember `data_len = len(data)`, run the send loop, and return `data_len`. -/
def write (o : Oracle) (t : FdTransport) (data : Bytes) (timeout_sec : Option ℚ) :
    Except Err ℕ × List Event × FdTransport :=
  let end_time := endTimeOf o timeout_sec
  let data_len := data.length
  match writeLoop o t end_time data with
  | (Except.ok _, ev, t1) => (Except.ok data_len, ev, t1)
  | (Except.error e, ev, t1) => (Except.error e, ev, t1)

/-! Sample environments and transports used by the concrete witnesses. -/

/-- A transport as left by `__init__` with descriptors 3 (read) and 4 (write). -/
def sampleT : FdTransport := ⟨some 3, some 4⟩

/-- A benign environment: `select` reports every watched descriptor ready,
reads return two bytes, writes accept the whole buffer. -/
def oBase : Oracle where
  monotonicStart := 0
  monotonicWait := 0
  select := fun rl wl _ _ => (rl, wl, [])
  readResult := fun _ _ => [7, 8]
  writeResult := fun d => d.length

/-- An environment in which nothing ever becomes ready: `select` always
returns three empty lists. -/
def oNeverReady : Oracle := { oBase with select := fun _ _ _ _ => ([], [], []) }

/-- An environment at end-of-stream: reads return zero bytes and writes
report zero bytes written. -/
def oEof : Oracle := { oBase with readResult := fun _ _ => [], writeResult := fun _ => 0 }

/-- A slow peer: each write attempt accepts exactly one byte. -/
def oSlow : Oracle := { oBase with writeResult := fun d => min 1 d.length }

/-- The accepted portions of a system-call trace: for each `os.write` call,
the portion of its buffer that the OS reported written, concatenated in
program order. -/
def acceptedChunks : List Event → Bytes
  | [] => []
  | Event.osWrite _ data k :: rest => data.take k ++ acceptedChunks rest
  | _ :: rest => acceptedChunks rest

/-- Number of `os.read` system calls in a trace. -/
def osReadCount (ev : List Event) : ℕ :=
  (ev.filter fun x => match x with | Event.osRead _ _ => true | _ => false).length

/-- Number of `select.select` system calls in a trace. -/
def selectCount (ev : List Event) : ℕ :=
  (ev.filter fun x => match x with | Event.selectCall _ _ _ _ => true | _ => false).length

/-- The all-clear flags state: every descriptor is in blocking mode. -/
def flags0 : FlagsState := ⟨fun _ => 0⟩

/-! Helper lemmas (internal; not tied to any single claim). -/

theorem awaitReady_end_time_none (o : Oracle) (rlist wlist timeout_sec : PyVal) :
    awaitReady o rlist wlist timeout_sec PyVal.none = (Except.ok Option.none, []) := rfl

theorem writeAwait_run (o : Oracle) (t : FdTransport) (e : Option ℚ) :
    writeAwait o t e = (Except.ok Option.none, []) := rfl

theorem close_events (t : FdTransport) :
    ∀ x ∈ (close t).1, ∃ fd, x = Event.osClose fd := by
  intro x hx
  cases hr : t.read_fd <;> cases hw : t.write_fd <;> simp [close, hr, hw] at hx
  · exact ⟨_, hx⟩
  · exact ⟨_, hx⟩
  · rcases hx with hx | hx
    · exact ⟨_, hx⟩
    · exact ⟨_, hx⟩

theorem close_state (t : FdTransport) : (close t).2 = t := rfl

theorem awaitReady_trace (o : Oracle) (rlist wlist timeout_sec end_time : PyVal) :
    (awaitReady o rlist wlist timeout_sec end_time).2 = [] ∨
      ∃ rl wl xl q,
        (awaitReady o rlist wlist timeout_sec end_time).2 = [Event.selectCall rl wl xl q] := by
  unfold awaitReady
  rcases end_time with _ | q | l
  · left; rfl
  all_goals
    rcases h1 : resolveTimeout o timeout_sec _ with e | tmo <;> simp only [h1]
    · left; trivial
    · rcases h2 : asFdList rlist with _ | rl <;>
        rcases h3 : asFdList wlist with _ | wl <;> simp only [h2, h3]
      · left; trivial
      · left; trivial
      · left; trivial
      · right
        split
        · exact ⟨_, _, _, _, rfl⟩
        · split
          · exact ⟨_, _, _, _, rfl⟩
          · exact ⟨_, _, _, _, rfl⟩

theorem awaitReady_events (o : Oracle) (rlist wlist timeout_sec end_time : PyVal) :
    ∀ x ∈ (awaitReady o rlist wlist timeout_sec end_time).2,
      ∃ rl wl xl q, x = Event.selectCall rl wl xl q := by
  intro x hx
  rcases awaitReady_trace o rlist wlist timeout_sec end_time with h | ⟨rl, wl, xl, q, h⟩ <;>
    rw [h] at hx
  · simp at hx
  · simp at hx
    exact ⟨_, _, _, _, hx⟩

theorem writeLoop_nil_run (o : Oracle) (t : FdTransport) (e : Option ℚ) :
    writeLoop o t e [] = (Except.ok (), [], t) := by
  rw [writeLoop]
  rfl

theorem writeLoop_step_none (o : Oracle) (t : FdTransport) (e : Option ℚ) (data : Bytes)
    (h : data ≠ []) (hw : t.write_fd = Option.none) :
    writeLoop o t e data = (Except.error Err.typeError, [], t) := by
  conv_lhs => rw [writeLoop.eq_def]
  rw [dif_neg h]
  simp only [writeAwait_run, hw]

theorem writeLoop_step (o : Oracle) (t : FdTransport) (e : Option ℚ) (data : Bytes)
    (h : data ≠ []) (fd : ℕ) (hw : t.write_fd = Option.some fd) :
    writeLoop o t e data =
      if o.writeResult data = 0 then
        (Except.error Err.transportClosed,
         [Event.osWrite fd data (o.writeResult data)] ++ (close t).1, (close t).2)
      else
        ((writeLoop o t e (data.drop (o.writeResult data))).1,
         [Event.osWrite fd data (o.writeResult data)] ++
           (writeLoop o t e (data.drop (o.writeResult data))).2.1,
         (writeLoop o t e (data.drop (o.writeResult data))).2.2) := by
  conv_lhs => rw [writeLoop.eq_def]
  rw [dif_neg h]
  simp only [writeAwait_run, hw]
  by_cases h0 : o.writeResult data = 0
  · rw [dif_pos h0, if_pos h0, h0]
    simp
  · rw [dif_neg h0, if_neg h0]
    simp

theorem writeLoop_no_select (o : Oracle) (t : FdTransport) (e : Option ℚ) :
    ∀ data : Bytes,
      (writeLoop o t e data).1 ≠ Except.error Err.ioTimeout ∧
      ∀ rl wl xl q, Event.selectCall rl wl xl q ∉ (writeLoop o t e data).2.1 := by
  suffices H : ∀ (n : ℕ) (data : Bytes), data.length ≤ n →
      (writeLoop o t e data).1 ≠ Except.error Err.ioTimeout ∧
      ∀ rl wl xl q, Event.selectCall rl wl xl q ∉ (writeLoop o t e data).2.1 by
    intro data
    exact H data.length data le_rfl
  intro n
  induction n with
  | zero =>
    intro data hle
    have hd : data = [] := List.eq_nil_of_length_eq_zero (Nat.le_zero.mp hle)
    subst hd
    rw [writeLoop_nil_run]
    exact ⟨by simp, by simp⟩
  | succ n ih =>
    intro data hle
    by_cases hd : data = []
    · subst hd
      rw [writeLoop_nil_run]
      exact ⟨by simp, by simp⟩
    · rcases hwf : t.write_fd with _ | fd
      · rw [writeLoop_step_none o t e data hd hwf]
        exact ⟨by simp, by simp⟩
      · rw [writeLoop_step o t e data hd fd hwf]
        by_cases h0 : o.writeResult data = 0
        · rw [if_pos h0]
          refine ⟨by simp, ?_⟩
          intro rl wl xl q hmem
          simp only [List.mem_append, List.mem_singleton] at hmem
          rcases hmem with hmem | hmem
          · exact Event.noConfusion hmem
          · rcases close_events t _ hmem with ⟨fd2, hfd⟩
            exact Event.noConfusion hfd
        · rw [if_neg h0]
          have hlen : (data.drop (o.writeResult data)).length ≤ n := by
            have hpos : 0 < data.length := List.length_pos.mpr hd
            have h1 : 1 ≤ o.writeResult data := Nat.one_le_iff_ne_zero.mpr h0
            simp only [List.length_drop]
            omega
          obtain ⟨ih1, ih2⟩ := ih _ hlen
          refine ⟨ih1, ?_⟩
          intro rl wl xl q hmem
          simp only [List.mem_append, List.mem_singleton] at hmem
          rcases hmem with hmem | hmem
          · exact Event.noConfusion hmem
          · exact ih2 rl wl xl q hmem

theorem writeLoop_chunks (o : Oracle) (t : FdTransport) (e : Option ℚ) :
    ∀ data : Bytes,
      (∀ fd p k, Event.osWrite fd p k ∈ (writeLoop o t e data).2.1 → ∃ j, p = data.drop j) ∧
      ((writeLoop o t e data).1 = Except.ok () →
        acceptedChunks (writeLoop o t e data).2.1 = data) := by
  suffices H : ∀ (n : ℕ) (data : Bytes), data.length ≤ n →
      (∀ fd p k, Event.osWrite fd p k ∈ (writeLoop o t e data).2.1 → ∃ j, p = data.drop j) ∧
      ((writeLoop o t e data).1 = Except.ok () →
        acceptedChunks (writeLoop o t e data).2.1 = data) by
    intro data
    exact H data.length data le_rfl
  intro n
  induction n with
  | zero =>
    intro data hle
    have hd : data = [] := List.eq_nil_of_length_eq_zero (Nat.le_zero.mp hle)
    subst hd
    rw [writeLoop_nil_run]
    exact ⟨by simp, by intro _; rfl⟩
  | succ n ih =>
    intro data hle
    by_cases hd : data = []
    · subst hd
      rw [writeLoop_nil_run]
      exact ⟨by simp, by intro _; rfl⟩
    · rcases hwf : t.write_fd with _ | fd
      · rw [writeLoop_step_none o t e data hd hwf]
        exact ⟨by simp, by intro hcon; exact absurd hcon (by simp)⟩
      · rw [writeLoop_step o t e data hd fd hwf]
        by_cases h0 : o.writeResult data = 0
        · rw [if_pos h0]
          constructor
          · intro fd2 p k hmem
            simp only [List.mem_append, List.mem_singleton] at hmem
            rcases hmem with hmem | hmem
            · refine ⟨0, ?_⟩
              cases hmem
              rfl
            · rcases close_events t _ hmem with ⟨fd3, hfd⟩
              exact Event.noConfusion hfd
          · intro hcon
            exact absurd hcon (by simp)
        · rw [if_neg h0]
          have hlen : (data.drop (o.writeResult data)).length ≤ n := by
            have hpos : 0 < data.length := List.length_pos.mpr hd
            have h1 : 1 ≤ o.writeResult data := Nat.one_le_iff_ne_zero.mpr h0
            simp only [List.length_drop]
            omega
          obtain ⟨ih1, ih2⟩ := ih _ hlen
          constructor
          · intro fd2 p k hmem
            simp only [List.mem_append, List.mem_singleton] at hmem
            rcases hmem with hmem | hmem
            · refine ⟨0, ?_⟩
              cases hmem
              rfl
            · rcases ih1 fd2 p k hmem with ⟨j, hj⟩
              refine ⟨o.writeResult data + j, ?_⟩
              rw [hj, List.drop_drop]
          · intro hok
            have hch := ih2 hok
            rw [List.singleton_append]
            show List.take (o.writeResult data) data ++
                acceptedChunks (writeLoop o t e (List.drop (o.writeResult data) data)).2.1 = data
            rw [hch]
            exact List.take_append_drop _ _

theorem writeLoop_one_shot (o : Oracle) (t : FdTransport) (e : Option ℚ) (data : Bytes)
    (h : data ≠ []) (fd : ℕ) (hw : t.write_fd = Option.some fd)
    (hres : o.writeResult data = data.length) :
    writeLoop o t e data = (Except.ok (), [Event.osWrite fd data data.length], t) := by
  rw [writeLoop_step o t e data h fd hw, hres, if_neg, List.drop_length, writeLoop_nil_run]
  · simp
  · intro hcon
    exact h (List.eq_nil_of_length_eq_zero hcon)

theorem osReadCount_of_all_select (l : List Event)
    (h : ∀ x ∈ l, ∃ rl wl xl q, x = Event.selectCall rl wl xl q) : osReadCount l = 0 := by
  unfold osReadCount
  rw [List.length_eq_zero, List.filter_eq_nil_iff]
  intro a ha
  rcases h a ha with ⟨rl, wl, xl, q, hx⟩
  subst hx
  simp

theorem writeLoop_result_cases (o : Oracle) (t : FdTransport) (e : Option ℚ) :
    ∀ data : Bytes,
      (writeLoop o t e data).1 = Except.ok () ∨
      (writeLoop o t e data).1 = Except.error Err.transportClosed ∨
      (writeLoop o t e data).1 = Except.error Err.typeError := by
  suffices H : ∀ (n : ℕ) (data : Bytes), data.length ≤ n →
      (writeLoop o t e data).1 = Except.ok () ∨
      (writeLoop o t e data).1 = Except.error Err.transportClosed ∨
      (writeLoop o t e data).1 = Except.error Err.typeError by
    intro data
    exact H data.length data le_rfl
  intro n
  induction n with
  | zero =>
    intro data hle
    have hd : data = [] := List.eq_nil_of_length_eq_zero (Nat.le_zero.mp hle)
    subst hd
    rw [writeLoop_nil_run]
    left; rfl
  | succ n ih =>
    intro data hle
    by_cases hd : data = []
    · subst hd
      rw [writeLoop_nil_run]
      left; rfl
    · rcases hwf : t.write_fd with _ | fd
      · rw [writeLoop_step_none o t e data hd hwf]
        right; right; rfl
      · rw [writeLoop_step o t e data hd fd hwf]
        by_cases h0 : o.writeResult data = 0
        · rw [if_pos h0]
          right; left; rfl
        · rw [if_neg h0]
          have hlen : (data.drop (o.writeResult data)).length ≤ n := by
            have hpos : 0 < data.length := List.length_pos.mpr hd
            have h1 : 1 ≤ o.writeResult data := Nat.one_le_iff_ne_zero.mpr h0
            simp only [List.length_drop]
            omega
          exact ih _ hlen

theorem writeLoop_results (o : Oracle) (t : FdTransport) (e : Option ℚ) :
    ∀ data : Bytes,
      selectCount (writeLoop o t e data).2.1 = 0 ∧
      ((writeLoop o t e data).1 = Except.ok () ∨
       (writeLoop o t e data).1 = Except.error Err.transportClosed ∨
       (writeLoop o t e data).1 = Except.error Err.typeError) := by
  intro data
  obtain ⟨-, hsel⟩ := writeLoop_no_select o t e data
  refine ⟨?_, writeLoop_result_cases o t e data⟩
  unfold selectCount
  rw [List.length_eq_zero, List.filter_eq_nil_iff]
  intro a ha
  rcases a with ⟨rl, wl, xl, q⟩ | ⟨fd, n2⟩ | ⟨fd, d, k⟩ | fd
  · exact absurd ha (hsel _ _ _ _)
  · simp
  · simp
  · simp

theorem write_eq_ok (o : Oracle) (t : FdTransport) (data : Bytes) (ts : Option ℚ)
    (u : Unit) (ev : List Event) (t1 : FdTransport)
    (hx : writeLoop o t (endTimeOf o ts) data = (Except.ok u, ev, t1)) :
    write o t data ts = (Except.ok data.length, ev, t1) := by
  simp only [write, hx]

theorem write_eq_error (o : Oracle) (t : FdTransport) (data : Bytes) (ts : Option ℚ)
    (err : Err) (ev : List Event) (t1 : FdTransport)
    (hx : writeLoop o t (endTimeOf o ts) data = (Except.error err, ev, t1)) :
    write o t data ts = (Except.error err, ev, t1) := by
  simp only [write, hx]

theorem write_results (o : Oracle) (t : FdTransport) (data : Bytes) (ts : Option ℚ) :
    selectCount (write o t data ts).2.1 = 0 ∧
    ((write o t data ts).1 = Except.ok data.length ∨
     (write o t data ts).1 = Except.error Err.transportClosed ∨
     (write o t data ts).1 = Except.error Err.typeError) := by
  obtain ⟨hsel, hres⟩ := writeLoop_results o t (endTimeOf o ts) data
  rcases hx : writeLoop o t (endTimeOf o ts) data with ⟨r, ev, t1⟩
  rw [hx] at hsel hres
  rcases r with err | u
  · rw [write_eq_error o t data ts err ev t1 hx]
    refine ⟨hsel, ?_⟩
    rcases hres with h | h | h
    · exact absurd h (fun hc => Except.noConfusion hc)
    · have herr : err = Err.transportClosed := by simpa using h
      subst herr
      exact Or.inr (Or.inl rfl)
    · have herr : err = Err.typeError := by simpa using h
      subst herr
      exact Or.inr (Or.inr rfl)
  · rw [write_eq_ok o t data ts u ev t1 hx]
    exact ⟨hsel, Or.inl rfl⟩

/-! The claims. -/

/-- Claim C1 (refutation of the specified behaviour, which the code does not
implement): the write path's readiness call `self._await_ready(end_time, [],
[self.write_fd])` passes `end_time` positionally into the `rlist` parameter
and leaves the `end_time` parameter at its default `None`, so no iteration of
the send loop ever waits for write-readiness — the trace of every `write`
call contains zero `select` calls — and a `write` call can never fail with
`IoTimeoutError`: its outcome is always full success or
`TransportClosedError`/`TypeError`, never a timeout, contradicting the claim
that each iteration waits bounded by the single deadline and times out when
the deadline elapses. -/
theorem claim_C1_write_never_waits_never_times_out (o : Oracle) (t : FdTransport)
    (data : Bytes) (timeout_sec : Option ℚ) :
    selectCount (write o t data timeout_sec).2.1 = 0 ∧
    ((write o t data timeout_sec).1 = Except.ok data.length ∨
     (write o t data timeout_sec).1 = Except.error Err.transportClosed ∨
     (write o t data timeout_sec).1 = Except.error Err.typeError) :=
  write_results o t data timeout_sec

/-- Claim C2 (refutation): `close` is not idempotent.  `close` never
invalidates the descriptor attributes, so on the transport with descriptors 3
and 4 a second `close()` issues `os.close(3)` and `os.close(4)` again — the
same descriptors are released twice, where the claim requires at most one
release per instance lifetime. -/
theorem claim_C2_second_close_releases_again :
    (close sampleT).1 = [Event.osClose 3, Event.osClose 4] ∧
    (close (close sampleT).2).1 = [Event.osClose 3, Event.osClose 4] :=
  ⟨rfl, rfl⟩

/-- Claim C3 (refutation): for a descriptor not already non-blocking, the
configurator does not re-query the descriptor's flags; it tests `O_NONBLOCK`
on the return value of the `F_SETFL` call, which is `0` on success, so it
raises `FdConfigurationError` even though the non-blocking flag was in fact
set (the resulting OS state has `O_NONBLOCK` set on descriptor 5), and
construction fails although both descriptors could be (and the first one was)
switched to non-blocking mode. -/
theorem claim_C3_configurator_misreports :
    (validateConfigureFd flags0 (FdLike.int 5)).1 = Except.error Err.fdConfiguration ∧
    (validateConfigureFd flags0 (FdLike.int 5)).2.flags 5 &&& O_NONBLOCK = O_NONBLOCK ∧
    (initTransport flags0 (FdLike.int 5) (FdLike.int 6)).1 = Except.error Err.fdConfiguration :=
  ⟨rfl, by decide, rfl⟩

/-- Claim C6: when the readiness waiter is called with the `end_time`
parameter absent (`None`), it returns immediately with result `None` and an
empty system-call trace — no blocking, no `select` invocation, no inspection
of any descriptor's readiness state. -/
theorem claim_C6_no_deadline_returns_immediately (o : Oracle)
    (rlist wlist timeout_sec : PyVal) :
    awaitReady o rlist wlist timeout_sec PyVal.none = (Except.ok Option.none, []) := rfl

/-- Claim C10: writing an empty payload returns 0 immediately: the send loop
body never runs, so the system-call trace is empty (no readiness wait, no
write syscall), no error is raised, and the state is unchanged. -/
theorem claim_C10_empty_write_returns_zero (o : Oracle) (t : FdTransport)
    (timeout_sec : Option ℚ) :
    write o t [] timeout_sec = (Except.ok 0, [], t) := by
  have h := write_eq_ok o t ([] : Bytes) timeout_sec () [] t
    (writeLoop_nil_run o t (endTimeOf o timeout_sec))
  simpa using h

theorem readAwait_events (o : Oracle) (t : FdTransport) (ts : Option ℚ) :
    ∀ x ∈ (readAwait o t ts).2, ∃ rl wl xl q, x = Event.selectCall rl wl xl q :=
  awaitReady_events o (PyVal.fds [t.read_fd]) (PyVal.fds []) PyVal.none
    (pyOfTime (endTimeOf o ts))

theorem read_eq_error (o : Oracle) (t : FdTransport) (n : ℕ) (ts : Option ℚ)
    (e : Err) (ev : List Event) (hx : readAwait o t ts = (Except.error e, ev)) :
    read o t n ts = (Except.error e, ev, t) := by
  simp only [read, hx]

theorem read_eq_none_fd (o : Oracle) (t : FdTransport) (n : ℕ) (ts : Option ℚ)
    (v : Option Bool) (ev : List Event)
    (hx : readAwait o t ts = (Except.ok v, ev)) (hrf : t.read_fd = Option.none) :
    read o t n ts = (Except.error Err.typeError, ev, t) := by
  simp only [read, hx, hrf]

theorem read_eq_ok_closed (o : Oracle) (t : FdTransport) (n : ℕ) (ts : Option ℚ)
    (v : Option Bool) (ev : List Event) (fd : ℕ)
    (h1 : t.read_fd = Option.some fd)
    (hx : readAwait o t ts = (Except.ok v, ev))
    (hres : o.readResult fd n = []) :
    read o t n ts =
      (Except.error Err.transportClosed, ev ++ [Event.osRead fd n] ++ (close t).1, t) := by
  simp only [read, hx, h1, hres, if_pos, close_state]

theorem read_eq_ok_data (o : Oracle) (t : FdTransport) (n : ℕ) (ts : Option ℚ)
    (v : Option Bool) (ev : List Event) (fd : ℕ)
    (h1 : t.read_fd = Option.some fd)
    (hx : readAwait o t ts = (Except.ok v, ev))
    (hres : o.readResult fd n ≠ []) :
    read o t n ts = (Except.ok (o.readResult fd n), ev ++ [Event.osRead fd n], t) := by
  simp only [read, hx, h1]
  rw [if_neg hres]

/-- Claim C4: a zero-byte result from the single read attempt makes `read`
call `self.close()` — which issues `os.close` on both descriptors — and only
then raise `TransportClosedError`, so the release events precede the error in
the trace; likewise a zero-byte `os.write` result inside the send loop makes
`write` release both descriptors and then raise `TransportClosedError`. -/
theorem claim_C4_eof_releases_then_raises (o : Oracle) (t : FdTransport)
    (rfd wfd n : ℕ) (ts ts2 : Option ℚ) (v : Option Bool) (data : Bytes)
    (h1 : t.read_fd = Option.some rfd) (h2 : t.write_fd = Option.some wfd) :
    ((readAwait o t ts).1 = Except.ok v → o.readResult rfd n = [] →
      read o t n ts = (Except.error Err.transportClosed,
        (readAwait o t ts).2 ++
          [Event.osRead rfd n, Event.osClose rfd, Event.osClose wfd], t)) ∧
    (data ≠ [] → o.writeResult data = 0 →
      write o t data ts2 = (Except.error Err.transportClosed,
        [Event.osWrite wfd data 0, Event.osClose rfd, Event.osClose wfd], t)) := by
  have hc : (close t).1 = [Event.osClose rfd, Event.osClose wfd] := by
    simp [close, h1, h2]
  constructor
  · intro ha hres
    rcases hx : readAwait o t ts with ⟨r, ev⟩
    rw [hx] at ha
    have ha2 : r = Except.ok v := ha
    subst ha2
    rw [read_eq_ok_closed o t n ts v ev rfd h1 hx hres, hc]
    simp
  · intro hd h0
    have hstep := writeLoop_step o t (endTimeOf o ts2) data hd wfd h2
    rw [if_pos h0, h0, hc, close_state] at hstep
    rw [write_eq_error o t data ts2 Err.transportClosed _ _ hstep]
    simp

/-- Claim C5: a call that fails with `IoTimeoutError` leaves the transport
untouched: the returned state equals the input state and the trace of the
call contains no `os.close` event, so neither descriptor is released and the
operation can be retried; for `write` this holds vacuously because the write
path can never raise `IoTimeoutError`. -/
theorem claim_C5_timeout_frame (o : Oracle) (t : FdTransport) (n : ℕ)
    (ts ts2 : Option ℚ) (data : Bytes) :
    ((read o t n ts).1 = Except.error Err.ioTimeout →
      (read o t n ts).2.2 = t ∧ ∀ fd, Event.osClose fd ∉ (read o t n ts).2.1) ∧
    ((write o t data ts2).1 = Except.error Err.ioTimeout →
      (write o t data ts2).2.2 = t ∧ ∀ fd, Event.osClose fd ∉ (write o t data ts2).2.1) := by
  constructor
  · intro h
    rcases hx : readAwait o t ts with ⟨r, ev⟩
    rcases r with e | v
    · rw [read_eq_error o t n ts e ev hx]
      refine ⟨rfl, ?_⟩
      intro fd hmem
      rcases readAwait_events o t ts _ (by rw [hx]; exact hmem) with ⟨rl, wl, xl, q, hxeq⟩
      exact Event.noConfusion hxeq
    · rcases hrf : t.read_fd with _ | fd
      · rw [read_eq_none_fd o t n ts v ev hx hrf] at h
        injection h with h2
        exact Err.noConfusion h2
      · by_cases hres : o.readResult fd n = []
        · rw [read_eq_ok_closed o t n ts v ev fd hrf hx hres] at h
          injection h with h2
          exact Err.noConfusion h2
        · rw [read_eq_ok_data o t n ts v ev fd hrf hx hres] at h
          exact Except.noConfusion h
  · intro h
    obtain ⟨-, hres⟩ := write_results o t data ts2
    rcases hres with hres | hres | hres <;> rw [hres] at h
    · exact Except.noConfusion h
    · injection h with h2
      exact Err.noConfusion h2
    · injection h with h2
      exact Err.noConfusion h2

/-- Claim C7: `write` never reports a partial send: whenever it returns a
value at all (`Except.ok m`), that value is the full original payload length. -/
theorem claim_C7_write_full_length (o : Oracle) (t : FdTransport)
    (data : Bytes) (ts : Option ℚ) (m : ℕ)
    (h : (write o t data ts).1 = Except.ok m) : m = data.length := by
  obtain ⟨-, hres⟩ := write_results o t data ts
  rcases hres with hres | hres | hres <;> rw [hres] at h
  · injection h with h2
    exact h2.symm
  · exact Except.noConfusion h
  · exact Except.noConfusion h

/-- Claim C8: throughout the send loop, the buffer handed to each `os.write`
attempt is always an exact suffix of the original payload (the not yet
accepted remainder), and on a successful `write` the accepted portions of the
attempts concatenate, in order, to exactly the original payload — no byte is
lost, duplicated, or reordered. -/
theorem claim_C8_remainder_exact_suffix (o : Oracle) (t : FdTransport)
    (data : Bytes) (ts : Option ℚ) :
    (∀ fd p k, Event.osWrite fd p k ∈ (write o t data ts).2.1 → ∃ j, p = data.drop j) ∧
    (∀ m, (write o t data ts).1 = Except.ok m →
      acceptedChunks (write o t data ts).2.1 = data) := by
  obtain ⟨hsuffix, hchunks⟩ := writeLoop_chunks o t (endTimeOf o ts) data
  rcases hx : writeLoop o t (endTimeOf o ts) data with ⟨r, ev, t1⟩
  rw [hx] at hsuffix hchunks
  rcases r with err | u
  · rw [write_eq_error o t data ts err ev t1 hx]
    refine ⟨fun fd p k hmem => hsuffix fd p k hmem, ?_⟩
    intro m hm
    exact Except.noConfusion hm
  · rw [write_eq_ok o t data ts u ev t1 hx]
    refine ⟨fun fd p k hmem => hsuffix fd p k hmem, ?_⟩
    intro m hm
    exact hchunks rfl

/-- Claim C9: `read` performs exactly one `os.read` attempt (one `osRead`
event in the trace), requesting up to `n` bytes, and a non-empty result is
returned exactly as the OS produced it, with length between 1 and `n`. -/
theorem claim_C9_read_single_attempt (o : Oracle) (t : FdTransport) (fd n : ℕ)
    (ts : Option ℚ) (v : Option Bool)
    (h1 : t.read_fd = Option.some fd)
    (h2 : (readAwait o t ts).1 = Except.ok v)
    (h3 : o.readResult fd n ≠ [])
    (h4 : (o.readResult fd n).length ≤ n) :
    (read o t n ts).1 = Except.ok (o.readResult fd n) ∧
    osReadCount (read o t n ts).2.1 = 1 ∧
    1 ≤ (o.readResult fd n).length ∧ (o.readResult fd n).length ≤ n := by
  rcases hx : readAwait o t ts with ⟨r, ev⟩
  rw [hx] at h2
  have h2b : r = Except.ok v := h2
  subst h2b
  rw [read_eq_ok_data o t n ts v ev fd h1 hx h3]
  refine ⟨rfl, ?_, List.length_pos.mpr h3, h4⟩
  have hev0 : osReadCount ev = 0 := by
    apply osReadCount_of_all_select
    intro x hxm
    exact readAwait_events o t ts x (by rw [hx]; exact hxm)
  unfold osReadCount at hev0 ⊢
  rw [List.filter_append, List.length_append, hev0]
  rfl

/-! Concrete witnesses. -/

theorem claim_C1_witness :
    selectCount (write oNeverReady sampleT [1, 2, 3] (Option.some 1)).2.1 = 0 ∧
    (write oNeverReady sampleT [1, 2, 3] (Option.some 1)).1 = Except.ok 3 := by
  refine ⟨(claim_C1_write_never_waits_never_times_out oNeverReady sampleT
    [1, 2, 3] (Option.some 1)).1, ?_⟩
  rw [write_eq_ok oNeverReady sampleT [1, 2, 3] (Option.some 1) ()
    [Event.osWrite 4 [1, 2, 3] 3] sampleT
    (by simpa using (writeLoop_one_shot oNeverReady sampleT (endTimeOf oNeverReady (Option.some 1)) [1, 2, 3] (by decide) 4 rfl rfl))]
  decide

theorem claim_C4_witness :
    (read oEof sampleT 5 (Option.some 1)).1 = Except.error Err.transportClosed ∧
    (read oEof sampleT 5 (Option.some 1)).2.1 =
      (readAwait oEof sampleT (Option.some 1)).2 ++
        [Event.osRead 3 5, Event.osClose 3, Event.osClose 4] ∧
    write oEof sampleT [9] (Option.some 2) = (Except.error Err.transportClosed,
      [Event.osWrite 4 [9] 0, Event.osClose 3, Event.osClose 4], sampleT) := by
  have H := claim_C4_eof_releases_then_raises oEof sampleT 3 4 5 (Option.some 1)
    (Option.some 2) Option.none [9] rfl rfl
  have h := H.1 (by decide) rfl
  refine ⟨?_, ?_, H.2 (by decide) rfl⟩
  · rw [h]
  · rw [h]

theorem claim_C5_witness :
    (read oNeverReady sampleT 5 (Option.some 1)).2.2 = sampleT ∧
    Event.osClose 3 ∉ (read oNeverReady sampleT 5 (Option.some 1)).2.1 := by
  have H := (claim_C5_timeout_frame oNeverReady sampleT 5 (Option.some 1)
    (Option.some 1) []).1 (by decide)
  exact ⟨H.1, H.2 3⟩

theorem claim_C7_witness :
    (write oBase sampleT [1, 2, 3] (Option.some 1)).1 = Except.ok 3 ∧
    3 = ([1, 2, 3] : Bytes).length := by
  have h : (write oBase sampleT [1, 2, 3] (Option.some 1)).1 = Except.ok 3 := by
    rw [write_eq_ok oBase sampleT [1, 2, 3] (Option.some 1) ()
      [Event.osWrite 4 [1, 2, 3] 3] sampleT
      (by simpa using (writeLoop_one_shot oBase sampleT (endTimeOf oBase (Option.some 1)) [1, 2, 3] (by decide) 4 rfl rfl))]
    decide
  exact ⟨h, claim_C7_write_full_length oBase sampleT [1, 2, 3] (Option.some 1) 3 h⟩

theorem claim_C8_witness :
    acceptedChunks (write oBase sampleT [5, 6] (Option.some 1)).2.1 = [5, 6] := by
  apply (claim_C8_remainder_exact_suffix oBase sampleT [5, 6] (Option.some 1)).2 2
  rw [write_eq_ok oBase sampleT [5, 6] (Option.some 1) ()
    [Event.osWrite 4 [5, 6] 2] sampleT
    (by simpa using (writeLoop_one_shot oBase sampleT (endTimeOf oBase (Option.some 1)) [5, 6] (by decide) 4 rfl rfl))]
  decide

theorem claim_C9_witness :
    (read oBase sampleT 5 (Option.some 1)).1 = Except.ok [7, 8] ∧
    osReadCount (read oBase sampleT 5 (Option.some 1)).2.1 = 1 ∧
    1 ≤ ([7, 8] : Bytes).length ∧ ([7, 8] : Bytes).length ≤ 5 :=
  claim_C9_read_single_attempt oBase sampleT 3 5 (Option.some 1) Option.none rfl
    (by decide) (by decide) (by decide)

end FdPy
